import Mathlib

/-!
Verification development for the layered configuration store of
`lib/simple_config.py` (class `SimpleConfig` and the module-level
`read_user_config`).

The embedding is shallow: Python dictionaries become association lists with
insertion-order semantics (`dictGet` returns the value at the first matching
key, `dictSet` replaces in place or appends, `dictPop` removes), Python's
`None` becomes the value constructor `Val.null`, Python numbers (ints and
floats as they occur in a JSON config) become rationals, and code that can
raise becomes `Except String`.  File-system and lock effects are not part of
the state: `save_user_config`, the directory-migration code and logging only
touch the outside world, and the reentrant lock serialises calls, so the
per-call state transformation modelled here is exactly the one of the source.

Two names used by the source live in `lib/bitcoin.py`, which is not among the
given sources; they are modelled from the spec where marked.
-/

namespace SimpleConfig

/-- A configuration value as stored in a Python dict coming from JSON or the
command line: Python `None`, a string, or a number (modelled as a rational,
covering both ints and floats). -/
inductive Val where
  | null : Val
  | str : String → Val
  | num : ℚ → Val
deriving DecidableEq, Repr

/-- A Python dict from string keys to values, as an insertion-ordered
association list. -/
abbrev Cfg := List (String × Val)

/-- Python `d.get(key)` without default: the value at the first occurrence of
the key, if any. -/
def dictGet : Cfg → String → Option Val
  | [], _ => none
  | p :: ps, k => if p.1 = k then some p.2 else dictGet ps k

/-- Python `key in d`. -/
def containsKey (d : Cfg) (k : String) : Bool :=
  (dictGet d k).isSome

/-- Python `d[key] = v`: replace the value at the first occurrence of the key
in place, or append the pair at the end. -/
def dictSet : Cfg → String → Val → Cfg
  | [], k, v => [(k, v)]
  | p :: ps, k, v => if p.1 = k then (k, v) :: ps else p :: dictSet ps k v

/-- Python `d.pop(key, None)` / `del d[key]`: drop every binding of the key. -/
def dictPop : Cfg → String → Cfg
  | [], _ => []
  | p :: ps, k => if p.1 = k then dictPop ps k else p :: dictPop ps k

/-- Python `d.get(key, default)`. -/
def pyGetD (d : Cfg) (k : String) (default : Val) : Val :=
  (dictGet d k).getD default

/-- The layered state of a `SimpleConfig` object: the command-line override
layer `cmdline_options` and the persisted layer `user_config`.  The lock,
the path and the fee caches are not part of this fragment of the state. -/
structure SCState where
  cmdline_options : Cfg
  user_config : Cfg
deriving DecidableEq, Repr

/-- `FINAL_CONFIG_VERSION = 2` (module-level constant of the source). -/
def FINAL_CONFIG_VERSION : ℚ := 2

/-- `SimpleConfig.is_modifiable`: `key not in self.cmdline_options`. -/
def is_modifiable (s : SCState) (key : String) : Bool :=
  ! containsKey s.cmdline_options key

/-- `SimpleConfig.get(key, default)`: `out = self.cmdline_options.get(key)`
(absent and stored `None` collapse to `None`), and if that is `None`, fall
back to `self.user_config.get(key, default)`. -/
def get (s : SCState) (key : String) (default : Val) : Val :=
  let out := pyGetD s.cmdline_options key .null
  if out = .null then pyGetD s.user_config key default else out

/-- `SimpleConfig._set_key_in_user_config` acting on the persisted layer:
store the value if it is not `None`, otherwise pop the key.  The `save`
side effect is outside the modelled state. -/
def _set_key_in_user_config (d : Cfg) (key : String) (value : Val) : Cfg :=
  if value = .null then dictPop d key else dictSet d key value

/-- `SimpleConfig.set_key`: refuse (with only a warning printed) when the key
is not modifiable, otherwise write through to the persisted layer. -/
def set_key (s : SCState) (key : String) (value : Val) : SCState :=
  if is_modifiable s key then
    { s with user_config := _set_key_in_user_config s.user_config key value }
  else s

/-- `SimpleConfig.get_config_version`: read `config_version` with default `1`.
The source then evaluates `config_version > FINAL_CONFIG_VERSION` (for a
warning), which raises `TypeError` when the stored value is not a number;
that raise is modelled as `Except.error`. -/
def get_config_version (s : SCState) : Except String ℚ :=
  match get s "config_version" (.num 1) with
  | .num q => .ok q
  | _ => .error "TypeError: config_version is not a number"

/-- `SimpleConfig.requires_upgrade`: `self.get_config_version() < FINAL_CONFIG_VERSION`. -/
def requires_upgrade (s : SCState) : Except String Bool := do
  let v ← get_config_version s
  pure (decide (v < FINAL_CONFIG_VERSION))

/-- `SimpleConfig._is_upgrade_method_needed`: skip when the current version is
above the range, raise when it is below, apply otherwise. -/
def _is_upgrade_method_needed (s : SCState) (min_version max_version : ℚ) :
    Except String Bool := do
  let cur ← get_config_version s
  if max_version < cur then pure false
  else if cur < min_version then
    .error "config upgrade: unexpected version"
  else pure true

/-- `SimpleConfig.rename_config_keys`: for each `(old, new)` pair, copy the
value to `new` only when `new` is absent, then delete `old`. -/
def rename_config_keys (d : Cfg) (keypairs : List (String × String)) : Cfg :=
  keypairs.foldl
    (fun d pr =>
      match dictGet d pr.1 with
      | some v => dictPop (if containsKey d pr.2 then d else dictSet d pr.2 v) pr.1
      | none => d)
    d

/-! Character-level machinery for the `server` string rewrite of
`convert_version_2`: Python's `str.rsplit(':', 2)` and the acceptance
condition of `int(port)`. -/

/-- `l.split(c)` on character lists: always returns a nonempty list of
colon-free (for `c = ':'`) segments. -/
def splitOnChar (c : Char) : List Char → List (List Char)
  | [] => [[]]
  | x :: xs =>
    match splitOnChar c xs with
    | [] => [[]]
    | h :: t => if x = c then [] :: h :: t else (x :: h) :: t

/-- Join segments back with a colon; inverse of `splitOnChar ':'`. -/
def joinColon : List (List Char) → List Char
  | [] => []
  | [p] => p
  | p :: ps => p ++ ':' :: joinColon ps

/-- `s.rsplit(':', 2)` followed by unpacking into exactly three names:
succeeds only when the string has at least two colons, and returns
(host, port, protocol) where host keeps any further colons. -/
def rsplit2 (l : List Char) : Option (List Char × List Char × List Char) :=
  match (splitOnChar ':' l).reverse with
  | protocol :: port :: r :: rest => some (joinColon ((r :: rest).reverse), port, protocol)
  | _ => none

/-- An ASCII decimal digit. -/
def isDig (c : Char) : Bool := decide ('0' ≤ c) && decide (c ≤ '9')

/-- Continuation of a Python integer literal after its first digit: digits
with single underscores allowed between digits. -/
def digRest : List Char → Bool
  | [] => true
  | '_' :: c :: cs => isDig c && digRest cs
  | '_' :: [] => false
  | c :: cs => isDig c && digRest cs

/-- Strip leading and trailing whitespace. -/
def stripWS (l : List Char) : List Char :=
  ((l.dropWhile Char.isWhitespace).reverse.dropWhile Char.isWhitespace).reverse

/-- Whether Python's `int(s)` accepts the string: surrounding whitespace, an
optional sign, then a nonempty digit sequence with optional single
underscores between digits. -/
def pyIntOk (l : List Char) : Bool :=
  match stripWS l with
  | '+' :: t => match t with
    | c :: cs => isDig c && digRest cs
    | [] => false
  | '-' :: t => match t with
    | c :: cs => isDig c && digRest cs
    | [] => false
  | c :: cs => isDig c && digRest cs
  | [] => false

/-- Python `str(v)` for the values that can sit in the config: `None` prints
as `"None"`, strings are themselves, numbers render without any colon (only
the absence of a colon matters to `convert_version_2`, which makes the exact
numeral rendering irrelevant). -/
def pyStr : Val → String
  | .null => "None"
  | .str s => s
  | .num q => toString q

/-- The `server` rewrite inside `SimpleConfig.convert_version_2`: read the
raw value, `str` it, `rsplit(':', 2)` into host/port/protocol, check the
protocol is `s` or `t` and the port parses as an int, and re-encode as
`host:port:s`; on any failure (`except BaseException`) remove the key. -/
def convert_server (d : Cfg) : Cfg :=
  match rsplit2 (pyStr (pyGetD d "server" .null)).toList with
  | some (host, port, protocol) =>
    if (protocol = ['s'] ∨ protocol = ['t']) ∧ pyIntOk port = true then
      dictSet d "server" (.str (String.mk (host ++ ':' :: port ++ ':' :: ['s'])))
    else dictPop d "server"
  | none => dictPop d "server"

/-- `SimpleConfig.convert_version_2`: guarded by
`_is_upgrade_method_needed(1, 1)`, rename `auto_cycle` to `auto_connect` in
the persisted layer, rewrite the `server` entry, then `set_key
'config_version' 2`. -/
def convert_version_2 (s : SCState) : Except String SCState := do
  let needed ← _is_upgrade_method_needed s 1 1
  if needed then
    let s1 : SCState :=
      { s with user_config := rename_config_keys s.user_config [("auto_cycle", "auto_connect")] }
    let s2 : SCState := { s1 with user_config := convert_server s1.user_config }
    pure (set_key s2 "config_version" (.num 2))
  else
    pure s

/-- `SimpleConfig.upgrade`: run the single registered migration step, then
`set_key('config_version', FINAL_CONFIG_VERSION)`. -/
def upgrade (s : SCState) : Except String SCState := do
  let s1 ← convert_version_2 s
  pure (set_key s1 "config_version" (.num FINAL_CONFIG_VERSION))

/-- The configuration-layer content of `SimpleConfig.__init__` just before
the upgrade check: command-line options with `config_version` popped and
`auto_cycle` renamed to `auto_connect`, and the persisted layer replaced by
`{'config_version': FINAL_CONFIG_VERSION}` when the file read produced an
empty (falsy) mapping.  Directory migration, `electrum_path` and the
location-dependent wallet-path rewrite only touch the file system or keys
the claims do not concern, and are outside the modelled state. -/
def initState (options readResult : Cfg) : SCState :=
  let cmdline := dictPop options "config_version"
  let user : Cfg :=
    if readResult.isEmpty then [("config_version", .num FINAL_CONFIG_VERSION)]
    else readResult
  ⟨rename_config_keys cmdline [("auto_cycle", "auto_connect")], user⟩

/-- `SimpleConfig.__init__` restricted to the two configuration layers:
build the initial state, then run the upgrade when the stored version is
below `FINAL_CONFIG_VERSION`. -/
def construct (options readResult : Cfg) : Except String SCState := do
  let needs ← requires_upgrade (initState options readResult)
  if needs then upgrade (initState options readResult)
  else pure (initState options readResult)

/-! Fee estimation (`dynfee`, `reverse_dynfee`, `max_fee_rate`).  The live
fee-estimate cache `self.fee_estimates` is a dict from confirmation-target
bucket to observed fee rate. -/

/-- Modelled from the spec: `FEE_TARGETS`, the fixed list of tracked
confirmation-target buckets, is imported from `lib/bitcoin.py` which is not
among the given sources; the spec describes the buckets as "small integer,
e.g. 2, 6, 10, 25". -/
def FEE_TARGETS : List ℤ := [2, 6, 10, 25]

/-- Modelled from the spec: `MAX_FEE_RATE`, the default maximum fee rate,
is imported from `lib/bitcoin.py` which is not among the given sources.  The
spec gives no numeric value; the concrete value only makes the model
executable, and no theorem below depends on it. -/
def MAX_FEE_RATE : ℚ := 10000

/-- The in-memory fee-estimate cache, in dict iteration (insertion) order. -/
abbrev FeeEstimates := List (ℤ × ℚ)

/-- `self.fee_estimates.get(j)`. -/
def feeGet : FeeEstimates → ℤ → Option ℚ
  | [], _ => none
  | p :: ps, k => if p.1 = k then some p.2 else feeGet ps k

/-- Python's two-argument `min` on numbers, written out so that it evaluates
by kernel reduction. -/
def pyMin2 (a b : ℚ) : ℚ := if b < a then b else a

/-- Python's `abs` on numbers, written out so that it evaluates by kernel
reduction. -/
def pyAbs (q : ℚ) : ℚ := if q < 0 then -q else q

/-- `SimpleConfig.dynfee(i)`: for `i < 4` look up bucket `FEE_TARGETS[i]`;
for `i == 4` take the bucket-2 estimate plus half of it; cap any result at
`5 * MAX_FEE_RATE`; `None` propagates.  (For `i > 4` the source raises an
`AssertionError`; no claim evaluates `dynfee` there.) -/
def dynfee (fe : FeeEstimates) (i : ℕ) : Option ℚ :=
  let fee : Option ℚ :=
    if i < 4 then feeGet fe (FEE_TARGETS.getD i 0)
    else if i = 4 then (feeGet fe 2).map (fun f => f + f / 2)
    else none
  fee.map (fun f => pyMin2 (5 * MAX_FEE_RATE) f)

/-- Python `min` over a nonempty list keyed by the second component: the
first element attaining the minimum. -/
def pyMinBy : List (ℤ × ℚ) → Option (ℤ × ℚ)
  | [] => none
  | x :: xs => some (xs.foldl (fun acc y => if y.2 < acc.2 then y else acc) x)

/-- `SimpleConfig.reverse_dynfee(fee_per_kb)`: take the bucket whose distance
to the requested rate is minimal among the observed buckets plus the
synthetic pair `(1, dynfee(4))`, then force `-1` when the rate is below half
the bucket-25 estimate.  A `None` from `dynfee(4)` or a missing bucket 25
makes the source raise `TypeError` (`abs(None - x)` / `None / 2`), modelled
as `none`. -/
def reverse_dynfee (fe : FeeEstimates) (fee_per_kb : ℚ) : Option ℤ := do
  let d4 ← dynfee fe 4
  let m ← pyMinBy ((fe ++ [(1, d4)]).map (fun x : ℤ × ℚ => (x.1, pyAbs (x.2 - fee_per_kb))))
  let e25 ← feeGet fe 25
  pure (if fee_per_kb < e25 / 2 then (-1) else m.1)

/-- `SimpleConfig.max_fee_rate`: `self.get('max_fee_rate', MAX_FEE_RATE)`,
with a stored `0` replaced by `MAX_FEE_RATE`.  A non-numeric stored value is
returned unchanged (Python's `f == 0` is simply false for it). -/
def max_fee_rate (s : SCState) : Val :=
  let f := get s "max_fee_rate" (.num MAX_FEE_RATE)
  if f = .num 0 then .num MAX_FEE_RATE else f

/-! Definitions written from the spec's words, for comparison with the
code-derived definitions above. -/

/-- The contract of `get` as the spec states it: the override-layer value if
present and non-null, else the persisted-layer value if present, else the
default. -/
def getAsSpecified (s : SCState) (key : String) (default : Val) : Val :=
  match dictGet s.cmdline_options key with
  | some v =>
    if v ≠ .null then v
    else match dictGet s.user_config key with
      | some w => w
      | none => default
  | none =>
    match dictGet s.user_config key with
    | some w => w
    | none => default

/-- The claim's reading of `dynfee(4)`: `1.5 ×` the bucket-2 estimate capped
at `5 ×` the *configured* maximum fee rate (`max_fee_rate()`), undefined when
bucket 2 has no observation. -/
def dynfee4AsSpecified (s : SCState) (fe : FeeEstimates) : Option ℚ :=
  match feeGet fe 2, max_fee_rate s with
  | some e2, .num mfr => some (pyMin2 (5 * mfr) (e2 + e2 / 2))
  | _, _ => none

/-! The module-level `read_user_config`.  The file system and `json.loads`
are outside the given sources, so their outcome is an abstract input. -/

/-- A JSON value as produced by `json.loads`. -/
inductive JVal where
  | null : JVal
  | bool : Bool → JVal
  | num : ℚ → JVal
  | str : String → JVal
  | arr : List JVal → JVal
  | obj : List (String × JVal) → JVal

/-- Outcome of locating, reading and JSON-parsing the config file. -/
inductive FileOutcome where
  | absent : FileOutcome
  | readFailure : FileOutcome
  | parseFailure : FileOutcome
  | parsedOk : JVal → FileOutcome

/-- `read_user_config(path)`: empty dict for a falsy path or a missing file;
the bare `except` turns read errors and JSON parse errors into an empty dict
(after a logged warning); a parsed value that is not a dict also yields an
empty dict.  Total by construction: no case raises. -/
def read_user_config (pathEmpty : Bool) (f : FileOutcome) : List (String × JVal) :=
  if pathEmpty then []
  else
    match f with
    | .absent => []
    | .readFailure => []
    | .parseFailure => []
    | .parsedOk j =>
      match j with
      | .obj fields => fields
      | _ => []

/-! Basic lemmas about the dict operations. -/

theorem dictGet_dictSet_self (d : Cfg) (k : String) (v : Val) :
    dictGet (dictSet d k v) k = some v := by
  induction d with
  | nil => simp [dictSet, dictGet]
  | cons p ps ih =>
    by_cases h : p.1 = k
    · simp [dictSet, dictGet, h]
    · simp [dictSet, dictGet, h, ih]

theorem dictGet_dictSet_ne (d : Cfg) (k k' : String) (v : Val) (h : k' ≠ k) :
    dictGet (dictSet d k v) k' = dictGet d k' := by
  induction d with
  | nil => simp [dictSet, dictGet, Ne.symm h]
  | cons p ps ih =>
    by_cases hp : p.1 = k
    · simp [dictSet, dictGet, hp, Ne.symm h]
    · by_cases hp' : p.1 = k'
      · simp [dictSet, dictGet, hp, hp', h, ih]
      · simp [dictSet, dictGet, hp, hp', ih]

theorem dictGet_dictPop_self (d : Cfg) (k : String) :
    dictGet (dictPop d k) k = none := by
  induction d with
  | nil => simp [dictPop, dictGet]
  | cons p ps ih =>
    by_cases h : p.1 = k
    · simp [dictPop, h, ih]
    · simp [dictPop, dictGet, h, ih]

theorem dictGet_dictPop_ne (d : Cfg) (k k' : String) (h : k' ≠ k) :
    dictGet (dictPop d k) k' = dictGet d k' := by
  induction d with
  | nil => simp [dictPop]
  | cons p ps ih =>
    by_cases hp : p.1 = k
    · simp [dictPop, dictGet, hp, Ne.symm h, ih]
    · by_cases hp' : p.1 = k'
      · simp [dictPop, dictGet, hp, hp', h]
      · simp [dictPop, dictGet, hp, hp', ih]

theorem dictSet_dictSet_self (d : Cfg) (k : String) (v : Val) :
    dictSet (dictSet d k v) k v = dictSet d k v := by
  induction d with
  | nil => simp [dictSet]
  | cons p ps ih =>
    by_cases h : p.1 = k
    · simp [dictSet, h]
    · simp [dictSet, h, ih]

theorem dictPop_dictPop_self (d : Cfg) (k : String) :
    dictPop (dictPop d k) k = dictPop d k := by
  induction d with
  | nil => simp [dictPop]
  | cons p ps ih =>
    by_cases h : p.1 = k
    · simp [dictPop, h, ih]
    · simp [dictPop, h, ih]

theorem dictPop_of_dictGet_none (d : Cfg) (k : String) (h : dictGet d k = none) :
    dictPop d k = d := by
  induction d with
  | nil => simp [dictPop]
  | cons p ps ih =>
    by_cases hp : p.1 = k
    · simp [dictGet, hp] at h
    · simp [dictGet, hp] at h
      simp [dictPop, hp, ih h]

theorem containsKey_false_iff (d : Cfg) (k : String) :
    containsKey d k = false ↔ dictGet d k = none := by
  cases h : dictGet d k <;> simp [containsKey, h]

theorem containsKey_true_iff (d : Cfg) (k : String) :
    containsKey d k = true ↔ ∃ v, dictGet d k = some v := by
  cases h : dictGet d k <;> simp [containsKey, h]

/-! Lemmas about `set_key`, `get` and the version read. -/

theorem set_key_cmdline (s : SCState) (k : String) (v : Val) :
    (set_key s k v).cmdline_options = s.cmdline_options := by
  unfold set_key
  by_cases h : is_modifiable s k = true <;> simp [h]

theorem set_key_of_not_modifiable (s : SCState) (k : String) (v : Val)
    (h : containsKey s.cmdline_options k = true) : set_key s k v = s := by
  simp [set_key, is_modifiable, h]

theorem set_key_of_modifiable (s : SCState) (k : String) (v : Val)
    (h : containsKey s.cmdline_options k = false) :
    set_key s k v = ⟨s.cmdline_options, _set_key_in_user_config s.user_config k v⟩ := by
  simp [set_key, is_modifiable, h]

theorem dictGet_set_key_user_ne (s : SCState) (k k' : String) (v : Val) (h : k' ≠ k) :
    dictGet (set_key s k v).user_config k' = dictGet s.user_config k' := by
  unfold set_key _set_key_in_user_config
  by_cases hm : is_modifiable s k = true
  · by_cases hv : v = Val.null
    · simp [hm, hv, dictGet_dictPop_ne _ _ _ h]
    · simp [hm, hv, dictGet_dictSet_ne _ _ _ _ h]
  · simp [hm]

theorem get_of_cmdline_none (s : SCState) (key : String) (default : Val)
    (h : dictGet s.cmdline_options key = none) :
    get s key default = pyGetD s.user_config key default := by
  simp [get, pyGetD, h]

theorem get_of_cmdline_null (s : SCState) (key : String) (default : Val)
    (h : dictGet s.cmdline_options key = some .null) :
    get s key default = pyGetD s.user_config key default := by
  simp [get, pyGetD, h]

theorem get_of_cmdline_some (s : SCState) (key : String) (default : Val) (v : Val)
    (h : dictGet s.cmdline_options key = some v) (hv : v ≠ .null) :
    get s key default = v := by
  simp [get, pyGetD, h, hv]

theorem get_config_version_congr (s₁ s₂ : SCState)
    (hc : s₁.cmdline_options = s₂.cmdline_options)
    (hu : dictGet s₁.user_config "config_version" = dictGet s₂.user_config "config_version") :
    get_config_version s₁ = get_config_version s₂ := by
  unfold get_config_version get pyGetD
  rw [hc, hu]

theorem get_config_version_set_key (s : SCState) (q : ℚ)
    (h : containsKey s.cmdline_options "config_version" = false) :
    get_config_version (set_key s "config_version" (.num q)) = .ok q := by
  rw [set_key_of_modifiable _ _ _ h]
  have hnone : dictGet s.cmdline_options "config_version" = none :=
    (containsKey_false_iff _ _).mp h
  simp [get_config_version, get, pyGetD, hnone, _set_key_in_user_config, dictGet_dictSet_self]

/-! Lemmas about `rename_config_keys` for a single key pair. -/

theorem rename_single (d : Cfg) (a b : String) :
    rename_config_keys d [(a, b)] =
      match dictGet d a with
      | some v => dictPop (if containsKey d b then d else dictSet d b v) a
      | none => d := by
  simp [rename_config_keys]

theorem rename_dictGet_other (d : Cfg) (a b k : String) (ha : k ≠ a) (hb : k ≠ b) :
    dictGet (rename_config_keys d [(a, b)]) k = dictGet d k := by
  rw [rename_single]
  cases h : dictGet d a with
  | none => rfl
  | some v =>
    by_cases hc : containsKey d b = true
    · simp [hc, dictGet_dictPop_ne _ _ _ ha]
    · simp [hc, dictGet_dictPop_ne _ _ _ ha, dictGet_dictSet_ne _ _ _ _ hb]

theorem rename_dictGet_old (d : Cfg) (a b : String) :
    dictGet (rename_config_keys d [(a, b)]) a = none := by
  rw [rename_single]
  cases h : dictGet d a with
  | none => exact h
  | some v =>
    by_cases hc : containsKey d b = true <;> simp [hc, dictGet_dictPop_self]

theorem rename_of_absent (d : Cfg) (a b : String) (h : dictGet d a = none) :
    rename_config_keys d [(a, b)] = d := by
  rw [rename_single, h]

theorem rename_moves (d : Cfg) (a b : String) (v : Val) (hab : a ≠ b)
    (ha : dictGet d a = some v) (hb : containsKey d b = false) :
    dictGet (rename_config_keys d [(a, b)]) b = some v := by
  rw [rename_single, ha]
  simp [hb, dictGet_dictPop_ne _ _ _ (Ne.symm hab), dictGet_dictSet_self]

/-! Lemmas about `splitOnChar`, `joinColon` and `rsplit2`. -/

theorem splitOnChar_ne_nil (c : Char) (l : List Char) : splitOnChar c l ≠ [] := by
  induction l with
  | nil => simp [splitOnChar]
  | cons x xs ih =>
    cases h : splitOnChar c xs with
    | nil => exact absurd h ih
    | cons p ps =>
      by_cases hx : x = c <;> simp [splitOnChar, h, hx]

theorem splitOnChar_append (c : Char) (a b : List Char) :
    splitOnChar c (a ++ c :: b) = splitOnChar c a ++ splitOnChar c b := by
  induction a with
  | nil =>
    cases h : splitOnChar c b with
    | nil => exact absurd h (splitOnChar_ne_nil c b)
    | cons p ps => simp [splitOnChar, h]
  | cons x xs ih =>
    cases h2 : splitOnChar c xs with
    | nil => exact absurd h2 (splitOnChar_ne_nil c xs)
    | cons q qs =>
      have ih' : splitOnChar c (xs ++ c :: b) = q :: (qs ++ splitOnChar c b) := by
        rw [ih, h2, List.cons_append]
      simp only [List.cons_append, splitOnChar, ih', h2]
      by_cases hx : x = c <;> simp [hx, ih']

theorem splitOnChar_of_not_mem (c : Char) (l : List Char) (h : c ∉ l) :
    splitOnChar c l = [l] := by
  induction l with
  | nil => rfl
  | cons x xs ih =>
    have hx : x ≠ c := fun hc => h (hc ▸ List.mem_cons_self x xs)
    have hxs : c ∉ xs := fun hc => h (List.mem_cons_of_mem x hc)
    simp [splitOnChar, ih hxs, hx]

theorem not_mem_of_mem_splitOnChar (c : Char) (l : List Char) (p : List Char)
    (h : p ∈ splitOnChar c l) : c ∉ p := by
  induction l generalizing p with
  | nil =>
    simp [splitOnChar] at h
    simp [h]
  | cons x xs ih =>
    cases h2 : splitOnChar c xs with
    | nil => exact absurd h2 (splitOnChar_ne_nil c xs)
    | cons q qs =>
      by_cases hx : x = c
      · rw [splitOnChar, h2] at h
        simp only [hx, if_pos rfl] at h
        rcases List.mem_cons.mp h with h | h
        · simp [h]
        · exact ih p (h2 ▸ h)
      · rw [splitOnChar, h2] at h
        simp only [if_neg hx] at h
        rcases List.mem_cons.mp h with h | h
        · subst h
          intro hmem
          rcases List.mem_cons.mp hmem with h | h
          · exact hx h.symm
          · exact ih q (h2 ▸ List.mem_cons_self q qs) h
        · exact ih p (h2 ▸ List.mem_cons_of_mem q h)

theorem joinColon_nil_cons (q : List Char) (qs : List (List Char)) :
    joinColon ([] :: q :: qs) = ':' :: joinColon (q :: qs) := rfl

theorem joinColon_cons_cons (x : Char) (q : List Char) (qs : List (List Char)) :
    joinColon ((x :: q) :: qs) = x :: joinColon (q :: qs) := by
  cases qs <;> rfl

theorem joinColon_splitOnChar (l : List Char) :
    joinColon (splitOnChar ':' l) = l := by
  induction l with
  | nil => rfl
  | cons x xs ih =>
    cases h : splitOnChar ':' xs with
    | nil => exact absurd h (splitOnChar_ne_nil ':' xs)
    | cons q qs =>
      rw [h] at ih
      by_cases hx : x = ':'
      · subst hx
        simp [splitOnChar, h, joinColon_nil_cons, ih]
      · simp [splitOnChar, h, hx, joinColon_cons_cons, ih]

theorem rsplit2_reencode (host port : List Char) (h : ':' ∉ port) :
    rsplit2 (host ++ ':' :: port ++ ':' :: ['s']) = some (host, port, ['s']) := by
  have hs : splitOnChar ':' (host ++ ':' :: (port ++ ':' :: ['s']))
      = splitOnChar ':' host ++ splitOnChar ':' (port ++ ':' :: ['s']) :=
    splitOnChar_append ':' host (port ++ ':' :: ['s'])
  have hp : splitOnChar ':' (port ++ ':' :: ['s'])
      = splitOnChar ':' port ++ splitOnChar ':' ['s'] :=
    splitOnChar_append ':' port ['s']
  have hport : splitOnChar ':' port = [port] := splitOnChar_of_not_mem ':' port h
  have hsingle : splitOnChar ':' ['s'] = [['s']] := rfl
  have hparts : splitOnChar ':' (host ++ ':' :: (port ++ ':' :: ['s']))
      = splitOnChar ':' host ++ [port, ['s']] := by
    rw [hs, hp, hport, hsingle]
    simp
  cases hh : (splitOnChar ':' host).reverse with
  | nil =>
    exact absurd (List.reverse_eq_nil_iff.mp hh) (splitOnChar_ne_nil ':' host)
  | cons r rest =>
    have hrev : (splitOnChar ':' (host ++ ':' :: (port ++ ':' :: ['s']))).reverse
        = ['s'] :: port :: r :: rest := by
      rw [hparts]
      simp [List.reverse_append, hh]
    have harg : host ++ ':' :: port ++ ':' :: ['s'] = host ++ ':' :: (port ++ ':' :: ['s']) := by
      simp
    have hjoin : joinColon (rest.reverse ++ [r]) = host := by
      rw [← List.reverse_cons, ← hh, List.reverse_reverse]
      exact joinColon_splitOnChar host
    rw [rsplit2, harg, hrev]
    simp [hjoin]

/-! Lemmas about `convert_server`. -/

theorem rsplit2_port_colon_free (l hst p pr : List Char)
    (hr : rsplit2 l = some (hst, p, pr)) : ':' ∉ p := by
  have hmem : p ∈ splitOnChar ':' l := by
    unfold rsplit2 at hr
    cases hrev : (splitOnChar ':' l).reverse with
    | nil => rw [hrev] at hr; exact absurd hr (by simp)
    | cons a rest =>
      cases rest with
      | nil => rw [hrev] at hr; exact absurd hr (by simp)
      | cons b rest2 =>
        cases rest2 with
        | nil => rw [hrev] at hr; exact absurd hr (by simp)
        | cons r rest3 =>
          rw [hrev] at hr
          simp only [Option.some.injEq, Prod.mk.injEq] at hr
          rw [← List.mem_reverse, hrev, ← hr.2.1]
          simp
  exact not_mem_of_mem_splitOnChar ':' l p hmem

theorem dictGet_convert_server_ne (d : Cfg) (k : String) (h : k ≠ "server") :
    dictGet (convert_server d) k = dictGet d k := by
  unfold convert_server
  cases hp : rsplit2 (pyStr (pyGetD d "server" .null)).toList with
  | none => exact dictGet_dictPop_ne _ _ _ h
  | some t =>
    obtain ⟨hst, prt, prot⟩ := t
    by_cases hv : (prot = ['s'] ∨ prot = ['t']) ∧ pyIntOk prt = true
    · simp only [if_pos hv]
      exact dictGet_dictSet_ne _ _ _ _ h
    · simp only [if_neg hv]
      exact dictGet_dictPop_ne _ _ _ h

theorem convert_server_of_popped (d' : Cfg)
    (hget : dictGet d' "server" = none) : convert_server d' = dictPop d' "server" := by
  unfold convert_server
  have hv : pyGetD d' "server" Val.null = Val.null := by simp [pyGetD, hget]
  rw [hv]
  rfl

theorem convert_server_idem (d : Cfg) :
    convert_server (convert_server d) = convert_server d := by
  cases hp : rsplit2 (pyStr (pyGetD d "server" .null)).toList with
  | none =>
    have hd : convert_server d = dictPop d "server" := by
      unfold convert_server; rw [hp]
    rw [hd, convert_server_of_popped _ (dictGet_dictPop_self d _)]
    exact dictPop_dictPop_self d _
  | some t =>
    obtain ⟨hst, prt, prot⟩ := t
    by_cases hv : (prot = ['s'] ∨ prot = ['t']) ∧ pyIntOk prt = true
    · have hd : convert_server d
          = dictSet d "server" (.str (String.mk (hst ++ ':' :: prt ++ ':' :: ['s']))) := by
        unfold convert_server; rw [hp]; simp [hv]
      rw [hd]
      have hget : dictGet (dictSet d "server"
            (.str (String.mk (hst ++ ':' :: prt ++ ':' :: ['s'])))) "server"
          = some (.str (String.mk (hst ++ ':' :: prt ++ ':' :: ['s']))) :=
        dictGet_dictSet_self _ _ _
      have hfree : ':' ∉ prt := rsplit2_port_colon_free _ _ _ _ hp
      unfold convert_server
      simp only [pyGetD]
      rw [hget]
      simp only [Option.getD_some, pyStr]
      have htl : (String.mk (hst ++ ':' :: prt ++ ':' :: ['s'])).toList
          = hst ++ ':' :: prt ++ ':' :: ['s'] := rfl
      rw [htl, rsplit2_reencode hst prt hfree]
      simp [hv.2, dictSet_dictSet_self]
    · have hd : convert_server d = dictPop d "server" := by
        unfold convert_server; rw [hp]; simp [hv]
      rw [hd, convert_server_of_popped _ (dictGet_dictPop_self d _)]
      exact dictPop_dictPop_self d _

/-! Structure lemmas for the monadic definitions. -/

theorem needed_eq (s : SCState) (minv maxv : ℚ) :
    _is_upgrade_method_needed s minv maxv =
      match get_config_version s with
      | .error e => .error e
      | .ok cur =>
        if maxv < cur then .ok false
        else if cur < minv then .error "config upgrade: unexpected version"
        else .ok true := by
  unfold _is_upgrade_method_needed
  cases get_config_version s <;> rfl

theorem requires_eq (s : SCState) :
    requires_upgrade s =
      match get_config_version s with
      | .error e => .error e
      | .ok v => .ok (decide (v < FINAL_CONFIG_VERSION)) := by
  unfold requires_upgrade
  cases get_config_version s <;> rfl

theorem convert_eq (s : SCState) :
    convert_version_2 s =
      match _is_upgrade_method_needed s 1 1 with
      | .error e => .error e
      | .ok false => .ok s
      | .ok true =>
        .ok (set_key
          ⟨s.cmdline_options,
           convert_server (rename_config_keys s.user_config [("auto_cycle", "auto_connect")])⟩
          "config_version" (.num 2)) := by
  unfold convert_version_2
  cases _is_upgrade_method_needed s 1 1 with
  | error e => rfl
  | ok b => cases b <;> rfl

theorem upgrade_eq (s : SCState) :
    upgrade s =
      match convert_version_2 s with
      | .error e => .error e
      | .ok t => .ok (set_key t "config_version" (.num FINAL_CONFIG_VERSION)) := by
  unfold upgrade
  cases convert_version_2 s <;> rfl

theorem construct_eq (options readResult : Cfg) :
    construct options readResult =
      match requires_upgrade (initState options readResult) with
      | .error e => .error e
      | .ok true => upgrade (initState options readResult)
      | .ok false => .ok (initState options readResult) := by
  unfold construct
  cases requires_upgrade (initState options readResult) with
  | error e => rfl
  | ok b => cases b <;> rfl

/-- The persisted layer produced by the two data-rewriting steps of
`convert_version_2`. -/
def convertedUser (u : Cfg) : Cfg :=
  convert_server (rename_config_keys u [("auto_cycle", "auto_connect")])

theorem convertedUser_config_version (u : Cfg) :
    dictGet (convertedUser u) "config_version" = dictGet u "config_version" := by
  unfold convertedUser
  rw [dictGet_convert_server_ne _ _ (by decide)]
  exact rename_dictGet_other _ _ _ _ (by decide) (by decide)

theorem convertedUser_fix (u : Cfg) : convertedUser (convertedUser u) = convertedUser u := by
  unfold convertedUser
  have hac : dictGet (convert_server
      (rename_config_keys u [("auto_cycle", "auto_connect")])) "auto_cycle" = none := by
    rw [dictGet_convert_server_ne _ _ (by decide)]
    exact rename_dictGet_old _ _ _
  rw [rename_of_absent _ _ _ hac]
  exact convert_server_idem _

theorem convert_of_version_gt (s : SCState) (v : ℚ)
    (hv : get_config_version s = .ok v) (h1 : 1 < v) :
    convert_version_2 s = .ok s := by
  rw [convert_eq, needed_eq, hv]
  simp [h1]

theorem convert_of_version_lt (s : SCState) (v : ℚ)
    (hv : get_config_version s = .ok v) (h2 : v < 1) :
    convert_version_2 s = .error "config upgrade: unexpected version" := by
  rw [convert_eq, needed_eq, hv]
  have h1 : ¬ 1 < v := by linarith
  simp [h1, h2]

theorem convert_of_version_one (s : SCState)
    (hv : get_config_version s = .ok 1) :
    convert_version_2 s =
      .ok (set_key ⟨s.cmdline_options, convertedUser s.user_config⟩
        "config_version" (.num 2)) := by
  rw [convert_eq, needed_eq, hv]
  norm_num [convertedUser]

theorem convert_cmdline (s t : SCState) (h : convert_version_2 s = .ok t) :
    t.cmdline_options = s.cmdline_options := by
  rw [convert_eq] at h
  cases hn : _is_upgrade_method_needed s 1 1 with
  | error e =>
    rw [hn] at h
    exact absurd h (by simp)
  | ok b =>
    rw [hn] at h
    cases b with
    | false =>
      simp only [Option.some.injEq] at h
      injection h with h
      rw [← h]
    | true =>
      injection h with h
      rw [← h, set_key_cmdline]

theorem upgrade_ok_cases (s s' : SCState) (h : upgrade s = .ok s') :
    ∃ t, convert_version_2 s = .ok t ∧
      s' = set_key t "config_version" (.num FINAL_CONFIG_VERSION) := by
  rw [upgrade_eq] at h
  cases hc : convert_version_2 s with
  | error e =>
    rw [hc] at h
    exact absurd h (by simp)
  | ok t =>
    rw [hc] at h
    injection h with h
    exact ⟨t, rfl, h.symm⟩

theorem convert_ok_cases (s t : SCState) (h : convert_version_2 s = .ok t) :
    (∃ v, get_config_version s = .ok v ∧ 1 < v ∧ t = s) ∨
    (get_config_version s = .ok 1 ∧
      t = set_key ⟨s.cmdline_options, convertedUser s.user_config⟩
        "config_version" (.num 2)) := by
  cases hv : get_config_version s with
  | error e =>
    rw [convert_eq, needed_eq, hv] at h
    exact absurd h (by simp)
  | ok v =>
    rcases lt_trichotomy v 1 with h2 | h2 | h1
    · rw [convert_of_version_lt s v hv h2] at h
      exact absurd h (by simp)
    · subst h2
      rw [convert_of_version_one s hv] at h
      injection h with h
      exact Or.inr ⟨rfl, h.symm⟩
    · rw [convert_of_version_gt s v hv h1] at h
      injection h with h
      exact Or.inl ⟨v, rfl, h1, h.symm⟩

theorem _set_key_num (d : Cfg) (k : String) (q : ℚ) :
    _set_key_in_user_config d k (.num q) = dictSet d k (.num q) := by
  simp [_set_key_in_user_config]

theorem upgrade_ok_convert_fix (s s' : SCState) (h : upgrade s = .ok s') :
    convert_version_2 s' = .ok s' := by
  obtain ⟨t, hc, hs'⟩ := upgrade_ok_cases s s' h
  cases hm : containsKey s.cmdline_options "config_version" with
  | true =>
    have hmt : containsKey t.cmdline_options "config_version" = true := by
      rw [convert_cmdline s t hc]; exact hm
    have hst : s' = t := by rw [hs', set_key_of_not_modifiable _ _ _ hmt]
    rcases convert_ok_cases s t hc with ⟨v, hv, h1, ht⟩ | ⟨hv, ht⟩
    · rw [hst, ht]
      rw [ht] at hc
      exact hc
    · have hsA : t = ⟨s.cmdline_options, convertedUser s.user_config⟩ := by
        rw [ht, set_key_of_not_modifiable
          ⟨s.cmdline_options, convertedUser s.user_config⟩ _ _ hm]
      have hcveq : dictGet s'.user_config "config_version"
          = dictGet s.user_config "config_version" := by
        rw [hst, hsA]
        exact convertedUser_config_version s.user_config
      have hcm' : s'.cmdline_options = s.cmdline_options := by rw [hst, hsA]
      have hv' : get_config_version s' = .ok 1 := by
        rw [get_config_version_congr s' s hcm' hcveq]
        exact hv
      rw [convert_of_version_one s' hv']
      have hu' : convertedUser s'.user_config = s'.user_config := by
        rw [hst, hsA]
        exact convertedUser_fix s.user_config
      have hstate : (⟨s'.cmdline_options, convertedUser s'.user_config⟩ : SCState) = s' := by
        rw [hu']
      rw [hstate, set_key_of_not_modifiable]
      rw [hcm']
      exact hm
  | false =>
    have hmt : containsKey t.cmdline_options "config_version" = false := by
      rw [convert_cmdline s t hc]; exact hm
    have hv' : get_config_version s' = .ok 2 := by
      rw [hs']
      exact get_config_version_set_key t 2 hmt
    exact convert_of_version_gt s' 2 hv' (by norm_num)

theorem upgrade_ok_set_fix (s s' : SCState) (h : upgrade s = .ok s') :
    set_key s' "config_version" (.num FINAL_CONFIG_VERSION) = s' := by
  obtain ⟨t, hc, hs'⟩ := upgrade_ok_cases s s' h
  cases hm : containsKey s.cmdline_options "config_version" with
  | true =>
    have hmt : containsKey t.cmdline_options "config_version" = true := by
      rw [convert_cmdline s t hc]; exact hm
    have hst : s' = t := by rw [hs', set_key_of_not_modifiable _ _ _ hmt]
    rw [set_key_of_not_modifiable]
    rw [hst]
    exact hmt
  | false =>
    have hmt : containsKey t.cmdline_options "config_version" = false := by
      rw [convert_cmdline s t hc]; exact hm
    have hs'2 : s' = ⟨t.cmdline_options,
        dictSet t.user_config "config_version" (.num FINAL_CONFIG_VERSION)⟩ := by
      rw [hs', set_key_of_modifiable _ _ _ hmt, _set_key_num]
    have hm' : containsKey s'.cmdline_options "config_version" = false := by
      rw [hs'2]; exact hmt
    rw [set_key_of_modifiable _ _ _ hm', hs'2, _set_key_num]
    simp [dictSet_dictSet_self]

theorem upgrade_idem_master (s s' : SCState) (h : upgrade s = .ok s') :
    upgrade s' = .ok s' := by
  rw [upgrade_eq, upgrade_ok_convert_fix s s' h]
  show Except.ok (set_key s' "config_version" (.num FINAL_CONFIG_VERSION)) = .ok s'
  rw [upgrade_ok_set_fix s s' h]

/-! Lemmas about the constructor. -/

theorem initState_cmdline_no_version (options readResult : Cfg) :
    containsKey (initState options readResult).cmdline_options "config_version" = false := by
  rw [containsKey_false_iff]
  show dictGet (rename_config_keys (dictPop options "config_version")
    [("auto_cycle", "auto_connect")]) "config_version" = none
  rw [rename_dictGet_other _ _ _ _ (by decide) (by decide)]
  exact dictGet_dictPop_self options _

theorem construct_ok_cases (options readResult : Cfg) (s : SCState)
    (h : construct options readResult = .ok s) :
    (requires_upgrade (initState options readResult) = .ok true ∧
      upgrade (initState options readResult) = .ok s) ∨
    (requires_upgrade (initState options readResult) = .ok false ∧
      s = initState options readResult) := by
  rw [construct_eq] at h
  cases hr : requires_upgrade (initState options readResult) with
  | error e =>
    rw [hr] at h
    exact absurd h (by simp)
  | ok b =>
    rw [hr] at h
    cases b with
    | true => exact Or.inl ⟨rfl, h⟩
    | false =>
      injection h with h
      exact Or.inr ⟨rfl, h.symm⟩

theorem upgrade_cmdline (s s' : SCState) (h : upgrade s = .ok s') :
    s'.cmdline_options = s.cmdline_options := by
  obtain ⟨t, hc, hs'⟩ := upgrade_ok_cases s s' h
  rw [hs', set_key_cmdline, convert_cmdline s t hc]

theorem construct_cmdline_no_version (options readResult : Cfg) (s : SCState)
    (h : construct options readResult = .ok s) :
    containsKey s.cmdline_options "config_version" = false := by
  rcases construct_ok_cases options readResult s h with ⟨_, hu⟩ | ⟨_, hs⟩
  · rw [upgrade_cmdline _ _ hu]
    exact initState_cmdline_no_version options readResult
  · rw [hs]
    exact initState_cmdline_no_version options readResult

theorem upgrade_sets_version (s s' : SCState)
    (hmod : containsKey s.cmdline_options "config_version" = false)
    (h : upgrade s = .ok s') :
    dictGet s'.user_config "config_version" = some (.num FINAL_CONFIG_VERSION) := by
  obtain ⟨t, hc, hs'⟩ := upgrade_ok_cases s s' h
  have hmt : containsKey t.cmdline_options "config_version" = false := by
    rw [convert_cmdline s t hc]; exact hmod
  rw [hs', set_key_of_modifiable _ _ _ hmt, _set_key_num]
  exact dictGet_dictSet_self _ _ _

theorem contains_version_of_not_requires (s : SCState)
    (hm : containsKey s.cmdline_options "config_version" = false)
    (h : requires_upgrade s = .ok false) :
    ∃ q : ℚ, dictGet s.user_config "config_version" = some (.num q)
      ∧ FINAL_CONFIG_VERSION ≤ q := by
  cases hv : get_config_version s with
  | error e =>
    rw [requires_eq, hv] at h
    exact absurd h (by simp)
  | ok v =>
    rw [requires_eq, hv] at h
    have hge : FINAL_CONFIG_VERSION ≤ v := by
      injection h with h
      exact not_lt.mp (by simpa using h)
    have hnone : dictGet s.cmdline_options "config_version" = none :=
      (containsKey_false_iff _ _).mp hm
    unfold get_config_version at hv
    rw [get_of_cmdline_none _ _ _ hnone] at hv
    cases hu : dictGet s.user_config "config_version" with
    | none =>
      simp only [pyGetD, hu, Option.getD_none] at hv
      injection hv with hv
      rw [← hv] at hge
      norm_num [FINAL_CONFIG_VERSION] at hge
    | some w =>
      cases w with
      | null => simp [pyGetD, hu] at hv
      | str t => simp [pyGetD, hu] at hv
      | num q =>
        simp only [pyGetD, hu, Option.getD_some] at hv
        injection hv with hv
        subst hv
        exact ⟨q, rfl, hge⟩

/-! Lemmas about the fee estimator. -/

theorem pyMin2_eq_min (a b : ℚ) : pyMin2 a b = min a b := by
  by_cases h : b < a
  · simp [pyMin2, h, min_eq_right h.le]
  · simp [pyMin2, h, min_eq_left (not_lt.mp h)]

theorem pyAbs_eq_abs (q : ℚ) : pyAbs q = |q| := by
  by_cases h : q < 0
  · simp [pyAbs, h, abs_of_neg h]
  · simp [pyAbs, h, abs_of_nonneg (not_lt.mp h)]

/-- The first element of the list attaining the minimal second component:
it bounds every element from below, and everything strictly before it is
strictly larger.  This is the tie-breaking behaviour of Python's `min` with
a key function. -/
def FirstMin (l : List (ℤ × ℚ)) (m : ℤ × ℚ) : Prop :=
  (∀ y ∈ l, m.2 ≤ y.2) ∧ ∃ l₁ l₂, l = l₁ ++ m :: l₂ ∧ ∀ y ∈ l₁, m.2 < y.2

theorem foldl_min_firstMin (xs : List (ℤ × ℚ)) :
    ∀ acc, FirstMin (acc :: xs)
      (xs.foldl (fun a z => if z.2 < a.2 then z else a) acc) := by
  induction xs with
  | nil =>
    intro acc
    exact ⟨by simp, [], [], rfl, by simp⟩
  | cons y ys ih =>
    intro acc
    rw [List.foldl_cons]
    by_cases hy : y.2 < acc.2
    · rw [if_pos hy]
      obtain ⟨hmin, l₁, l₂, hsplit, hstrict⟩ := ih y
      have hminy := hmin y (List.mem_cons_self y ys)
      refine ⟨?_, acc :: l₁, l₂, ?_, ?_⟩
      · intro z hz
        rcases List.mem_cons.mp hz with rfl | hz
        · exact le_of_lt (lt_of_le_of_lt hminy hy)
        · exact hmin z hz
      · rw [List.cons_append, ← hsplit]
      · intro z hz
        rcases List.mem_cons.mp hz with rfl | hz
        · exact lt_of_le_of_lt hminy hy
        · exact hstrict z hz
    · rw [if_neg hy]
      obtain ⟨hmin, l₁, l₂, hsplit, hstrict⟩ := ih acc
      have hminacc := hmin acc (List.mem_cons_self acc ys)
      refine ⟨?_, ?_⟩
      · intro z hz
        rcases List.mem_cons.mp hz with rfl | hz
        · exact hminacc
        rcases List.mem_cons.mp hz with rfl | hz
        · exact le_trans hminacc (not_lt.mp hy)
        · exact hmin z (List.mem_cons_of_mem acc hz)
      · cases l₁ with
        | nil =>
          simp only [List.nil_append] at hsplit
          injection hsplit with h1 h2
          refine ⟨[], y :: ys, ?_, by simp⟩
          simp only [List.nil_append]
          rw [← h1]
        | cons a l₁' =>
          simp only [List.cons_append] at hsplit
          injection hsplit with h1 h2
          have hstacc := hstrict a (List.mem_cons_self a l₁')
          rw [← h1] at hstacc
          refine ⟨acc :: y :: l₁', l₂, ?_, ?_⟩
          · simp only [List.cons_append]
            rw [← h2]
          · intro z hz
            rcases List.mem_cons.mp hz with rfl | hz
            · exact hstacc
            rcases List.mem_cons.mp hz with rfl | hz
            · exact lt_of_lt_of_le hstacc (not_lt.mp hy)
            · exact hstrict z (List.mem_cons_of_mem a hz)

theorem pyMinBy_firstMin (l : List (ℤ × ℚ)) (m : ℤ × ℚ) (h : pyMinBy l = some m) :
    FirstMin l m := by
  cases l with
  | nil => simp [pyMinBy] at h
  | cons x xs =>
    have hfm := foldl_min_firstMin xs x
    simp only [pyMinBy, Option.some.injEq] at h
    rw [← h]
    exact hfm

theorem dynfee4_eq (fe : FeeEstimates) :
    dynfee fe 4 = (feeGet fe 2).map
      (fun e => pyMin2 (5 * MAX_FEE_RATE) (e + e / 2)) := by
  unfold dynfee
  norm_num [Option.map_map]
  rfl

theorem reverse_dynfee_eq (fe : FeeEstimates) (f : ℚ) :
    reverse_dynfee fe f =
      (dynfee fe 4).bind (fun d4 =>
        (pyMinBy ((fe ++ [(1, d4)]).map
            (fun x : ℤ × ℚ => (x.1, pyAbs (x.2 - f))))).bind (fun m =>
          (feeGet fe 25).bind (fun e25 =>
            some (if f < e25 / 2 then (-1) else m.1)))) := by
  unfold reverse_dynfee
  cases dynfee fe 4 with
  | none => rfl
  | some d4 =>
    cases pyMinBy ((fe ++ [(1, d4)]).map (fun x : ℤ × ℚ => (x.1, pyAbs (x.2 - f)))) with
    | none => rfl
    | some m =>
      cases feeGet fe 25 <;> rfl

theorem reverse_dynfee_spec (fe : FeeEstimates) (f e2 e25 : ℚ)
    (h2 : feeGet fe 2 = some e2) (h25 : feeGet fe 25 = some e25) :
    ∃ m : ℤ × ℚ,
      FirstMin ((fe ++ [(1, pyMin2 (5 * MAX_FEE_RATE) (e2 + e2 / 2))]).map
        (fun x : ℤ × ℚ => (x.1, pyAbs (x.2 - f)))) m ∧
      reverse_dynfee fe f = some (if f < e25 / 2 then (-1) else m.1) := by
  have hd4 : dynfee fe 4 = some (pyMin2 (5 * MAX_FEE_RATE) (e2 + e2 / 2)) := by
    rw [dynfee4_eq, h2]
    rfl
  obtain ⟨m, hm⟩ : ∃ m, pyMinBy ((fe ++ [(1, pyMin2 (5 * MAX_FEE_RATE) (e2 + e2 / 2))]).map
      (fun x : ℤ × ℚ => (x.1, pyAbs (x.2 - f)))) = some m := by
    cases hc : (fe ++ [(1, pyMin2 (5 * MAX_FEE_RATE) (e2 + e2 / 2))]).map
        (fun x : ℤ × ℚ => (x.1, pyAbs (x.2 - f))) with
    | nil =>
      exfalso
      have : fe ++ [(1, pyMin2 (5 * MAX_FEE_RATE) (e2 + e2 / 2))] = [] :=
        List.map_eq_nil_iff.mp hc
      simp at this
    | cons a as =>
      exact ⟨_, rfl⟩
  refine ⟨m, pyMinBy_firstMin _ m hm, ?_⟩
  rw [reverse_dynfee_eq, hd4, Option.some_bind, hm, Option.some_bind, h25, Option.some_bind]

theorem needed_true_version (s : SCState)
    (hn : _is_upgrade_method_needed s 1 1 = .ok true) :
    get_config_version s = .ok 1 := by
  cases hv : get_config_version s with
  | error e =>
    rw [needed_eq, hv] at hn
    exact absurd hn (by simp)
  | ok v =>
    rcases lt_trichotomy v 1 with h2 | h2 | h1
    · rw [needed_eq, hv] at hn
      have h1 : ¬ 1 < v := by linarith
      simp [h1, h2] at hn
    · rw [h2]
    · rw [needed_eq, hv] at hn
      simp [h1] at hn

/-! The claim theorems. -/

/-- Claim C1: for every key and default, `get(key, default)` returns the
override-layer (command-line) value when the key is present there with a
non-null value; otherwise the persisted-layer value when the key is present
there; otherwise the given default. -/
theorem claim_get_precedence (s : SCState) (key : String) (default : Val) :
    get s key default = getAsSpecified s key default := by
  unfold get getAsSpecified pyGetD
  cases hc : dictGet s.cmdline_options key with
  | none =>
    cases dictGet s.user_config key <;> simp
  | some v =>
    by_cases hv : v = Val.null
    · subst hv
      cases dictGet s.user_config key <;> simp
    · simp [hv]

/-- Claim C2: `set_key(key, value)` leaves both layers unchanged (only a
warning is logged) when the key is present in the override layer; otherwise
it stores a non-null value in the persisted layer and removes the key for a
null value, never touching the override layer. -/
theorem claim_set_key_behavior (s : SCState) (key : String) (value : Val) :
    set_key s key value =
      if containsKey s.cmdline_options key then s
      else ⟨s.cmdline_options,
        if value = Val.null then dictPop s.user_config key
        else dictSet s.user_config key value⟩ := by
  unfold set_key is_modifiable _set_key_in_user_config
  cases hm : containsKey s.cmdline_options key <;>
    by_cases hv : value = Val.null <;> simp [hm, hv]

/-- Claim C3: after construction completes, the persisted layer contains the
key `config_version`; and when construction ran the upgrade to completion,
the stored `config_version` equals `FINAL_CONFIG_VERSION` (2). -/
theorem claim_config_version_invariant (options readResult : Cfg) (s : SCState)
    (h : construct options readResult = .ok s) :
    containsKey s.user_config "config_version" = true ∧
    (requires_upgrade (initState options readResult) = .ok true →
      dictGet s.user_config "config_version" = some (.num FINAL_CONFIG_VERSION)) := by
  rcases construct_ok_cases options readResult s h with ⟨hr, hu⟩ | ⟨hr, hs⟩
  · have hv := upgrade_sets_version (initState options readResult) s
      (initState_cmdline_no_version options readResult) hu
    exact ⟨(containsKey_true_iff _ _).mpr ⟨_, hv⟩, fun _ => hv⟩
  · obtain ⟨q, hq, _⟩ := contains_version_of_not_requires (initState options readResult)
      (initState_cmdline_no_version options readResult) hr
    subst hs
    refine ⟨(containsKey_true_iff _ _).mpr ⟨_, hq⟩, ?_⟩
    intro habs
    rw [hr] at habs
    exact absurd habs (by simp)

/-- Claim C3, witness: a construction from a persisted mapping without a
`config_version` runs the upgrade and stores version 2. -/
theorem claim_config_version_invariant_witness :
    construct [] [("auto_cycle", Val.num 1)]
      = .ok ⟨[], [("auto_connect", Val.num 1), ("config_version", Val.num 2)]⟩ ∧
    (containsKey ([("auto_connect", Val.num 1), ("config_version", Val.num 2)] : Cfg)
        "config_version" = true ∧
      (requires_upgrade (initState [] [("auto_cycle", Val.num 1)]) = .ok true →
        dictGet ([("auto_connect", Val.num 1), ("config_version", Val.num 2)] : Cfg)
          "config_version" = some (.num FINAL_CONFIG_VERSION))) :=
  ⟨rfl, claim_config_version_invariant [] [("auto_cycle", Val.num 1)]
    ⟨[], [("auto_connect", Val.num 1), ("config_version", Val.num 2)]⟩ rfl⟩

/-- Claim C4: running the upgrade twice from a state whose stored config
version is at most `FINAL_CONFIG_VERSION` yields the same result as running
it once. -/
theorem claim_upgrade_idempotent (s : SCState) (v : ℚ)
    (hv : get_config_version s = .ok v) (hle : v ≤ FINAL_CONFIG_VERSION) :
    (upgrade s).bind upgrade = upgrade s := by
  cases h : upgrade s with
  | error e => rfl
  | ok s' =>
    show upgrade s' = Except.ok s'
    exact upgrade_idem_master s s' h

/-- Claim C4, witness: idempotence at a concrete version-1 state. -/
theorem claim_upgrade_idempotent_witness :
    get_config_version ⟨[], [("config_version", Val.num 1), ("server", Val.str "h:1:t")]⟩
      = .ok 1 ∧
    (1 : ℚ) ≤ FINAL_CONFIG_VERSION ∧
    (upgrade ⟨[], [("config_version", Val.num 1), ("server", Val.str "h:1:t")]⟩).bind upgrade
      = upgrade ⟨[], [("config_version", Val.num 1), ("server", Val.str "h:1:t")]⟩ :=
  ⟨rfl, by decide,
    claim_upgrade_idempotent ⟨[], [("config_version", Val.num 1), ("server", Val.str "h:1:t")]⟩
      1 rfl (by decide)⟩

/-- When the stored `server` value is a string that splits into host, port
and a valid protocol with an int-parsable port, `convert_server` re-encodes
it as `host:port:s`. -/
theorem convert_server_success (d : Cfg) (str : String) (hst prt pr : List Char)
    (hd : dictGet d "server" = some (.str str))
    (hrs : rsplit2 str.toList = some (hst, prt, pr))
    (hpr : pr = ['s'] ∨ pr = ['t']) (hint : pyIntOk prt = true) :
    convert_server d = dictSet d "server"
      (.str (String.mk (hst ++ ':' :: prt ++ ':' :: ['s']))) := by
  unfold convert_server
  rw [show pyGetD d "server" Val.null = Val.str str by simp [pyGetD, hd]]
  simp only [pyStr]
  rw [hrs]

  simp only [if_pos (And.intro hpr hint)]

/-- When the stored `server` value is a string that fails the parse or the
validation, `convert_server` drops the key. -/
theorem convert_server_failure (d : Cfg) (str : String)
    (hd : dictGet d "server" = some (.str str))
    (hbad : ∀ hst prt pr, rsplit2 str.toList = some (hst, prt, pr) →
      ¬ ((pr = ['s'] ∨ pr = ['t']) ∧ pyIntOk prt = true)) :
    convert_server d = dictPop d "server" := by
  unfold convert_server
  rw [show pyGetD d "server" Val.null = Val.str str by simp [pyGetD, hd]]
  simp only [pyStr]
  cases hrs : rsplit2 str.toList with
  | none => rfl
  | some t =>
    obtain ⟨hst, prt, pr⟩ := t
    show (if (pr = ['s'] ∨ pr = ['t']) ∧ pyIntOk prt = true then _ else _) = _
    rw [if_neg (hbad hst prt pr hrs)]

/-- Claim C5: in the v1-to-v2 migration step (applied, i.e. the range check
for `[1, 1]` returned true), a `server` string of the form
`host:port:protocol` with protocol `s` or `t` and an int-parsable port is
rewritten to `host:port:s`; on any parse or validation failure the key is
removed; and `auto_cycle` is renamed to `auto_connect`. -/
theorem claim_v1_v2_migration (s s' : SCState)
    (hn : _is_upgrade_method_needed s 1 1 = .ok true)
    (h : convert_version_2 s = .ok s') :
    (∀ str hst prt pr, dictGet s.user_config "server" = some (.str str) →
      rsplit2 str.toList = some (hst, prt, pr) →
      (pr = ['s'] ∨ pr = ['t']) → pyIntOk prt = true →
      dictGet s'.user_config "server"
        = some (.str (String.mk (hst ++ ':' :: prt ++ ':' :: ['s'])))) ∧
    (∀ str, dictGet s.user_config "server" = some (.str str) →
      (∀ hst prt pr, rsplit2 str.toList = some (hst, prt, pr) →
        ¬ ((pr = ['s'] ∨ pr = ['t']) ∧ pyIntOk prt = true)) →
      dictGet s'.user_config "server" = none) ∧
    (∀ v, dictGet s.user_config "auto_cycle" = some v →
      containsKey s.user_config "auto_connect" = false →
      dictGet s'.user_config "auto_connect" = some v) ∧
    containsKey s'.user_config "auto_cycle" = false := by
  have hv1 := needed_true_version s hn
  rw [convert_of_version_one s hv1] at h
  injection h with h
  subst h
  have hrn : dictGet (rename_config_keys s.user_config [("auto_cycle", "auto_connect")])
      "server" = dictGet s.user_config "server" :=
    rename_dictGet_other _ _ _ _ (by decide) (by decide)
  refine ⟨?_, ?_, ?_, ?_⟩
  · intro str hst prt pr hsv hrs hpr hint
    rw [dictGet_set_key_user_ne _ _ _ _ (by decide)]
    show dictGet (convertedUser s.user_config) "server" = _
    unfold convertedUser
    rw [convert_server_success _ str hst prt pr (by rw [hrn]; exact hsv) hrs hpr hint]
    exact dictGet_dictSet_self _ _ _
  · intro str hsv hbad
    rw [dictGet_set_key_user_ne _ _ _ _ (by decide)]
    show dictGet (convertedUser s.user_config) "server" = none
    unfold convertedUser
    rw [convert_server_failure _ str (by rw [hrn]; exact hsv) hbad]
    exact dictGet_dictPop_self _ _
  · intro v hac hnc
    rw [dictGet_set_key_user_ne _ _ _ _ (by decide)]
    show dictGet (convertedUser s.user_config) "auto_connect" = some v
    unfold convertedUser
    rw [dictGet_convert_server_ne _ _ (by decide)]
    exact rename_moves _ _ _ v (by decide) hac hnc
  · rw [containsKey_false_iff]
    rw [dictGet_set_key_user_ne _ _ _ _ (by decide)]
    show dictGet (convertedUser s.user_config) "auto_cycle" = none
    unfold convertedUser
    rw [dictGet_convert_server_ne _ _ (by decide)]
    exact rename_dictGet_old _ _ _

/-- Claim C5, witness: `host:1234:t` migrates to `host:1234:s` and
`auto_cycle` is renamed, at a concrete version-1 state. -/
theorem claim_v1_v2_migration_witness :
    _is_upgrade_method_needed
        ⟨[], [("auto_cycle", Val.num 7), ("server", Val.str "host:1234:t"),
          ("config_version", Val.num 1)]⟩ 1 1 = .ok true ∧
    convert_version_2
        ⟨[], [("auto_cycle", Val.num 7), ("server", Val.str "host:1234:t"),
          ("config_version", Val.num 1)]⟩
      = .ok ⟨[], [("server", Val.str "host:1234:s"), ("config_version", Val.num 2),
          ("auto_connect", Val.num 7)]⟩ ∧
    ((∀ str hst prt pr,
      dictGet [("auto_cycle", Val.num 7), ("server", Val.str "host:1234:t"),
          ("config_version", Val.num 1)] "server" = some (.str str) →
      rsplit2 str.toList = some (hst, prt, pr) →
      (pr = ['s'] ∨ pr = ['t']) → pyIntOk prt = true →
      dictGet [("server", Val.str "host:1234:s"), ("config_version", Val.num 2),
          ("auto_connect", Val.num 7)] "server"
        = some (.str (String.mk (hst ++ ':' :: prt ++ ':' :: ['s'])))) ∧
    (∀ str,
      dictGet [("auto_cycle", Val.num 7), ("server", Val.str "host:1234:t"),
          ("config_version", Val.num 1)] "server" = some (.str str) →
      (∀ hst prt pr, rsplit2 str.toList = some (hst, prt, pr) →
        ¬ ((pr = ['s'] ∨ pr = ['t']) ∧ pyIntOk prt = true)) →
      dictGet [("server", Val.str "host:1234:s"), ("config_version", Val.num 2),
          ("auto_connect", Val.num 7)] "server" = none) ∧
    (∀ v,
      dictGet [("auto_cycle", Val.num 7), ("server", Val.str "host:1234:t"),
          ("config_version", Val.num 1)] "auto_cycle" = some v →
      containsKey [("auto_cycle", Val.num 7), ("server", Val.str "host:1234:t"),
          ("config_version", Val.num 1)] "auto_connect" = false →
      dictGet [("server", Val.str "host:1234:s"), ("config_version", Val.num 2),
          ("auto_connect", Val.num 7)] "auto_connect" = some v) ∧
    containsKey [("server", Val.str "host:1234:s"), ("config_version", Val.num 2),
        ("auto_connect", Val.num 7)] "auto_cycle" = false) :=
  ⟨rfl, rfl, claim_v1_v2_migration
    ⟨[], [("auto_cycle", Val.num 7), ("server", Val.str "host:1234:t"),
      ("config_version", Val.num 1)]⟩
    ⟨[], [("server", Val.str "host:1234:s"), ("config_version", Val.num 2),
      ("auto_connect", Val.num 7)]⟩ rfl rfl⟩

/-- Claim C6: for a migration step registered for `[min, max]` with
`min ≤ max`, a current version above `max` skips the step (and the one
registered step then leaves the state unchanged), a version below `min`
raises, and a version inside the range applies the step. -/
theorem claim_range_check (s : SCState) (minv maxv v : ℚ)
    (hmm : minv ≤ maxv) (hv : get_config_version s = .ok v) :
    (maxv < v → _is_upgrade_method_needed s minv maxv = .ok false) ∧
    (v < minv → _is_upgrade_method_needed s minv maxv
        = .error "config upgrade: unexpected version") ∧
    (minv ≤ v → v ≤ maxv → _is_upgrade_method_needed s minv maxv = .ok true) ∧
    (1 < v → convert_version_2 s = .ok s) := by
  refine ⟨?_, ?_, ?_, ?_⟩
  · intro h1
    rw [needed_eq, hv]
    simp [h1]
  · intro h2
    rw [needed_eq, hv]
    have h1 : ¬ maxv < v := by linarith
    simp [h1, h2]
  · intro hl hr
    rw [needed_eq, hv]
    have h1 : ¬ maxv < v := not_lt.mpr hr
    have h2 : ¬ v < minv := not_lt.mpr hl
    simp [h1, h2]
  · intro h1
    exact convert_of_version_gt s v hv h1

/-- Claim C6, witness: a stored version 3 against the range `[1, 1]`. -/
theorem claim_range_check_witness :
    (1 : ℚ) ≤ 1 ∧
    get_config_version ⟨[], [("config_version", Val.num 3)]⟩ = .ok 3 ∧
    (((1 : ℚ) < 3 →
      _is_upgrade_method_needed ⟨[], [("config_version", Val.num 3)]⟩ 1 1 = .ok false) ∧
    ((3 : ℚ) < 1 →
      _is_upgrade_method_needed ⟨[], [("config_version", Val.num 3)]⟩ 1 1
        = .error "config upgrade: unexpected version") ∧
    ((1 : ℚ) ≤ 3 → (3 : ℚ) ≤ 1 →
      _is_upgrade_method_needed ⟨[], [("config_version", Val.num 3)]⟩ 1 1 = .ok true) ∧
    ((1 : ℚ) < 3 →
      convert_version_2 ⟨[], [("config_version", Val.num 3)]⟩
        = .ok ⟨[], [("config_version", Val.num 3)]⟩)) :=
  ⟨by decide, rfl,
    claim_range_check ⟨[], [("config_version", Val.num 3)]⟩ 1 1 3 (by decide) rfl⟩

/-- Claim C7, counterexample: with a configured `max_fee_rate` of 1000 and a
bucket-2 estimate of 100000, the code caps `dynfee(4)` at
`5 * MAX_FEE_RATE = 50000` (the module constant), not at five times the
configured maximum (5000) as the claim states. -/
theorem claim_dynfee_counterexample :
    dynfee [((2 : ℤ), (100000 : ℚ))] 4 = some 50000 ∧
    dynfee4AsSpecified ⟨[], [("max_fee_rate", Val.num 1000)]⟩
      [((2 : ℤ), (100000 : ℚ))] = some 5000 ∧
    dynfee [((2 : ℤ), (100000 : ℚ))] 4
      ≠ dynfee4AsSpecified ⟨[], [("max_fee_rate", Val.num 1000)]⟩
        [((2 : ℤ), (100000 : ℚ))] := by
  have h1 : dynfee [((2 : ℤ), (100000 : ℚ))] 4 = some 50000 := by
    rw [dynfee4_eq]
    show some (pyMin2 (5 * MAX_FEE_RATE) ((100000 : ℚ) + 100000 / 2)) = some 50000
    norm_num [pyMin2, MAX_FEE_RATE]
  have h2 : dynfee4AsSpecified ⟨[], [("max_fee_rate", Val.num 1000)]⟩
      [((2 : ℤ), (100000 : ℚ))] = some 5000 := by
    show some (pyMin2 (5 * 1000) ((100000 : ℚ) + 100000 / 2)) = some 5000
    norm_num [pyMin2]
  refine ⟨h1, h2, ?_⟩
  rw [h1, h2]
  norm_num

/-- Claim C7, amended: `dynfee(4)` has no value when bucket 2 has no
observation; otherwise it is 1.5 times the bucket-2 estimate capped at five
times the `MAX_FEE_RATE` module constant (the default maximum fee rate) —
not at five times the configured `max_fee_rate` value. -/
theorem claim_dynfee_amended (fe : FeeEstimates) :
    (feeGet fe 2 = none → dynfee fe 4 = none) ∧
    (∀ e2, feeGet fe 2 = some e2 →
      dynfee fe 4 = some (pyMin2 (5 * MAX_FEE_RATE) (e2 + e2 / 2))) := by
  constructor
  · intro h
    rw [dynfee4_eq, h]
    rfl
  · intro e2 h
    rw [dynfee4_eq, h]
    rfl

/-- Claim C7 (amended), witness: a concrete bucket-2 observation. -/
theorem claim_dynfee_amended_witness :
    feeGet [((2 : ℤ), (100 : ℚ))] 2 = some 100 ∧
    dynfee [((2 : ℤ), (100 : ℚ))] 4
      = some (pyMin2 (5 * MAX_FEE_RATE) (100 + 100 / 2)) :=
  ⟨rfl, (claim_dynfee_amended [((2 : ℤ), (100 : ℚ))]).2 100 rfl⟩

/-- Claim C8: with observations for all tracked buckets, `reverse_dynfee`
returns `-1` whenever the requested rate is below half the bucket-25
estimate; otherwise it returns the first target (in cache iteration order,
the synthetic pair `(1, dynfee(4))` appended last) whose estimate has
minimal absolute distance to the requested rate. -/
theorem claim_reverse_dynfee (fe : FeeEstimates) (f e2 e25 : ℚ)
    (hfull : ∀ b ∈ FEE_TARGETS, (feeGet fe b).isSome = true)
    (h2 : feeGet fe 2 = some e2) (h25 : feeGet fe 25 = some e25) :
    (f < e25 / 2 → reverse_dynfee fe f = some (-1)) ∧
    (¬ f < e25 / 2 → ∃ m : ℤ × ℚ,
      FirstMin ((fe ++ [(1, pyMin2 (5 * MAX_FEE_RATE) (e2 + e2 / 2))]).map
        (fun x : ℤ × ℚ => (x.1, pyAbs (x.2 - f)))) m ∧
      reverse_dynfee fe f = some m.1) := by
  obtain ⟨m, hfm, hrd⟩ := reverse_dynfee_spec fe f e2 e25 h2 h25
  constructor
  · intro hlt
    rw [hrd, if_pos hlt]
  · intro hge
    exact ⟨m, hfm, by rw [hrd, if_neg hge]⟩

/-- Claim C8, witness: a full cache with buckets 2, 6, 10 and 25. -/
theorem claim_reverse_dynfee_witness :
    (∀ b ∈ FEE_TARGETS,
      (feeGet [((2 : ℤ), (1000 : ℚ)), (6, 800), (10, 500), (25, 300)] b).isSome = true) ∧
    (((100 : ℚ) < 300 / 2 →
      reverse_dynfee [((2 : ℤ), (1000 : ℚ)), (6, 800), (10, 500), (25, 300)] 100
        = some (-1)) ∧
    (¬ (100 : ℚ) < 300 / 2 → ∃ m : ℤ × ℚ,
      FirstMin (([((2 : ℤ), (1000 : ℚ)), (6, 800), (10, 500), (25, 300)]
          ++ [(1, pyMin2 (5 * MAX_FEE_RATE) (1000 + 1000 / 2))]).map
        (fun x : ℤ × ℚ => (x.1, pyAbs (x.2 - 100)))) m ∧
      reverse_dynfee [((2 : ℤ), (1000 : ℚ)), (6, 800), (10, 500), (25, 300)] 100
        = some m.1)) :=
  ⟨by decide,
    claim_reverse_dynfee [((2 : ℤ), (1000 : ℚ)), (6, 800), (10, 500), (25, 300)]
      100 1000 300 (by decide) rfl rfl⟩

/-- Claim C9: `read_user_config` returns an empty mapping when the config
file is absent, unreadable or unparsable, and when the parsed JSON value is
not an object; it is total (never raises) in all these cases. -/
theorem claim_read_user_config_failsoft (pathEmpty : Bool) (f : FileOutcome)
    (h : f = .absent ∨ f = .readFailure ∨ f = .parseFailure ∨
      ∃ j, f = .parsedOk j ∧ ∀ fields, j ≠ .obj fields) :
    read_user_config pathEmpty f = [] := by
  unfold read_user_config
  rcases h with rfl | rfl | rfl | ⟨j, rfl, hj⟩
  · cases pathEmpty <;> rfl
  · cases pathEmpty <;> rfl
  · cases pathEmpty <;> rfl
  · cases pathEmpty with
    | true => rfl
    | false =>
      cases j with
      | obj fields => exact absurd rfl (hj fields)
      | null => rfl
      | bool b => rfl
      | num q => rfl
      | str t => rfl
      | arr l => rfl

/-- Claim C9, witness: a nonempty path whose file exists but does not parse
as JSON. -/
theorem claim_read_user_config_failsoft_witness :
    (FileOutcome.parseFailure = FileOutcome.absent ∨
      FileOutcome.parseFailure = FileOutcome.readFailure ∨
      FileOutcome.parseFailure = FileOutcome.parseFailure ∨
      ∃ j, FileOutcome.parseFailure = FileOutcome.parsedOk j ∧
        ∀ fields, j ≠ JVal.obj fields) ∧
    read_user_config false FileOutcome.parseFailure = [] :=
  ⟨Or.inr (Or.inr (Or.inl rfl)),
    claim_read_user_config_failsoft false FileOutcome.parseFailure
      (Or.inr (Or.inr (Or.inl rfl)))⟩

/-- Claim C10: the constructor pops `config_version` from the command-line
overrides, so in every constructed store the key is modifiable, `set_key`
on it writes the persisted layer, and `get` on it never reads an override
value. -/
theorem claim_config_version_modifiable (options readResult : Cfg) (s : SCState)
    (h : construct options readResult = .ok s) :
    is_modifiable s "config_version" = true ∧
    (∀ v, set_key s "config_version" v
      = ⟨s.cmdline_options, _set_key_in_user_config s.user_config "config_version" v⟩) ∧
    (∀ d, get s "config_version" d = pyGetD s.user_config "config_version" d) := by
  have hm := construct_cmdline_no_version options readResult s h
  refine ⟨?_, ?_, ?_⟩
  · simp [is_modifiable, hm]
  · intro v
    exact set_key_of_modifiable s _ v hm
  · intro d
    exact get_of_cmdline_none s _ d ((containsKey_false_iff _ _).mp hm)

/-- Claim C10, witness: `config_version` passed on the command line is
discarded by the constructor. -/
theorem claim_config_version_modifiable_witness :
    construct [("config_version", Val.num 7), ("auto_cycle", Val.num 1)] [("x", Val.str "y")]
      = .ok ⟨[("auto_connect", Val.num 1)],
          [("x", Val.str "y"), ("config_version", Val.num 2)]⟩ ∧
    (is_modifiable ⟨[("auto_connect", Val.num 1)],
        [("x", Val.str "y"), ("config_version", Val.num 2)]⟩ "config_version" = true ∧
    (∀ v, set_key ⟨[("auto_connect", Val.num 1)],
        [("x", Val.str "y"), ("config_version", Val.num 2)]⟩ "config_version" v
      = ⟨[("auto_connect", Val.num 1)],
          _set_key_in_user_config [("x", Val.str "y"), ("config_version", Val.num 2)]
            "config_version" v⟩) ∧
    (∀ d, get ⟨[("auto_connect", Val.num 1)],
        [("x", Val.str "y"), ("config_version", Val.num 2)]⟩ "config_version" d
      = pyGetD [("x", Val.str "y"), ("config_version", Val.num 2)] "config_version" d)) :=
  ⟨rfl, claim_config_version_modifiable
    [("config_version", Val.num 7), ("auto_cycle", Val.num 1)] [("x", Val.str "y")]
    ⟨[("auto_connect", Val.num 1)], [("x", Val.str "y"), ("config_version", Val.num 2)]⟩ rfl⟩

end SimpleConfig
